import Mathlib

/-!
Shallow embedding of the request-admission and data-consistency core of a
Go JSON API (rate limiting, token authentication, permission gates,
optimistic-concurrency updates), together with theorems checking the
natural-language specification against it.

Machine integers are modelled as `Nat` with explicit reduction modulo
2^32 where the Go code computes on 32-bit words (SHA-256); times and
durations are modelled as rationals (seconds); byte slices as `List Nat`
with entries below 256; fallible operations return `Except`/`Option`.
-/

set_option maxRecDepth 100000

namespace Greenlight

/-! ## Bytes and UTF-8

Go converts a string to bytes with `[]byte(s)`, i.e. UTF-8 encoding, and
`len(s)` is the UTF-8 byte count. -/

/-- UTF-8 encoding of a single character (code point), most significant
byte first, as the Go runtime produces for `[]byte(s)`. -/
def charUtf8 (c : Char) : List Nat :=
  let n := c.toNat
  if n < 128 then [n]
  else if n < 2048 then [192 + n / 64, 128 + n % 64]
  else if n < 65536 then [224 + n / 4096, 128 + (n / 64) % 64, 128 + n % 64]
  else [240 + n / 262144, 128 + (n / 4096) % 64, 128 + (n / 64) % 64, 128 + n % 64]

/-- UTF-8 bytes of a string, the Go `[]byte(s)`; its length is the Go `len(s)`. -/
def utf8Bytes (s : String) : List Nat :=
  (s.data.map charUtf8).flatten

/-- Split a character list around every occurrence of the separator,
keeping empty fields, as Go's `strings.Split` does. -/
def splitCharList (sep : Char) : List Char → List (List Char)
  | [] => [[]]
  | c :: rest =>
      match splitCharList sep rest with
      | [] => [[c]]
      | g :: gs => if c = sep then [] :: g :: gs else (c :: g) :: gs

/-- Go's `strings.Split(s, " ")`: the substrings around every space. -/
def goSplitSpace (s : String) : List String :=
  (splitCharList ' ' s.data).map String.mk

/-! ## SHA-256 (crypto/sha256), FIPS 180-4 over `Nat` modulo 2^32 -/

/-- Reduction to a 32-bit word. -/
def w32 (x : Nat) : Nat := x % 4294967296

/-- Right rotation of a 32-bit word by `n` bits. -/
def rotr (n x : Nat) : Nat := w32 ((x >>> n) ||| (x <<< (32 - n)))

/-- FIPS 180-4 sigma-zero message-schedule function. -/
def ssig0 (x : Nat) : Nat := (rotr 7 x) ^^^ (rotr 18 x) ^^^ (x >>> 3)

/-- FIPS 180-4 sigma-one message-schedule function. -/
def ssig1 (x : Nat) : Nat := (rotr 17 x) ^^^ (rotr 19 x) ^^^ (x >>> 10)

/-- FIPS 180-4 big-Sigma-zero compression function. -/
def bsig0 (x : Nat) : Nat := (rotr 2 x) ^^^ (rotr 13 x) ^^^ (rotr 22 x)

/-- FIPS 180-4 big-Sigma-one compression function. -/
def bsig1 (x : Nat) : Nat := (rotr 6 x) ^^^ (rotr 11 x) ^^^ (rotr 25 x)

/-- The 64 SHA-256 round constants. -/
def shaK : List Nat :=
  [1116352408, 1899447441, 3049323471, 3921009573, 961987163, 1508970993,
   2453635748, 2870763221, 3624381080, 310598401, 607225278, 1426881987,
   1925078388, 2162078206, 2614888103, 3248222580, 3835390401, 4022224774,
   264347078, 604807628, 770255983, 1249150122, 1555081692, 1996064986,
   2554220882, 2821834349, 2952996808, 3210313671, 3336571891, 3584528711,
   113926993, 338241895, 666307205, 773529912, 1294757372, 1396182291,
   1695183700, 1986661051, 2177026350, 2456956037, 2730485921, 2820302411,
   3259730800, 3345764771, 3516065817, 3600352804, 4094571909, 275423344,
   430227734, 506948616, 659060556, 883997877, 958139571, 1322822218,
   1537002063, 1747873779, 1955562222, 2024104815, 2227730452, 2361852424,
   2428436474, 2756734187, 3204031479, 3329325298]

/-- The SHA-256 initial hash value. -/
def shaH0 : List Nat :=
  [1779033703, 3144134277, 1013904242, 2773480762,
   1359893119, 2600822924, 528734635, 1541459225]

/-- Big-endian bytes of a value, `n` bytes wide. -/
def beBytes : Nat → Nat → List Nat
  | 0, _ => []
  | k + 1, v => beBytes k (v / 256) ++ [v % 256]

/-- Group 4 consecutive bytes into one big-endian 32-bit word each. -/
def bytesToWords : List Nat → List Nat
  | b0 :: b1 :: b2 :: b3 :: rest =>
      (((b0 * 256 + b1) * 256 + b2) * 256 + b3) :: bytesToWords rest
  | _ => []

/-- Extend the 16 block words to the 64-entry message schedule
(fuel-driven to keep the recursion structural). -/
def schedExtend (fuel : Nat) (ws : Array Nat) : Array Nat :=
  match fuel with
  | 0 => ws
  | f + 1 =>
      let i := ws.size
      if 64 ≤ i then ws
      else
        let x := w32 (ws.getD (i - 16) 0 + ssig0 (ws.getD (i - 15) 0) +
                      ws.getD (i - 7) 0 + ssig1 (ws.getD (i - 2) 0))
        schedExtend f (ws.push x)

/-- One SHA-256 round on the eight-word working state; `kw` is the sum of
round constant and schedule word. -/
def shaRound (st : List Nat) (kw : Nat) : List Nat :=
  match st with
  | [a, b, c, d, e, f, g, h] =>
      let ch := (e &&& f) ^^^ ((4294967295 ^^^ e) &&& g)
      let t1 := w32 (h + bsig1 e + ch + kw)
      let maj := (a &&& b) ^^^ (a &&& c) ^^^ (b &&& c)
      let t2 := w32 (bsig0 a + maj)
      [w32 (t1 + t2), a, b, c, w32 (d + t1), e, f, g]
  | other => other

/-- Compress one 64-byte block into the running hash. -/
def shaCompress (hv : List Nat) (block : List Nat) : List Nat :=
  let ws := (schedExtend 64 (bytesToWords block).toArray).toList
  let st := (shaK.zip ws).foldl (fun s kw => shaRound s (w32 (kw.1 + kw.2))) hv
  (hv.zip st).map (fun p => w32 (p.1 + p.2))

/-- Split a list into chunks of `n` (fuel-driven). -/
def chunksAux (n : Nat) : Nat → List α → List (List α)
  | 0, _ => []
  | _, [] => []
  | f + 1, xs => xs.take n :: chunksAux n f (xs.drop n)

/-- Split a list into chunks of `n` elements, last chunk possibly short. -/
def chunks (n : Nat) (xs : List α) : List (List α) := chunksAux n xs.length xs

/-- SHA-256 padding: append 0x80, zeros to 56 mod 64, then the 64-bit
big-endian bit length. -/
def shaPad (msg : List Nat) : List Nat :=
  let l := msg.length
  let z := (64 - ((l + 9) % 64)) % 64
  msg ++ [128] ++ List.replicate z 0 ++ beBytes 8 (8 * l)

/-- SHA-256 digest of a byte list, as the 32-byte digest list; the Go
code obtains it as `sha256.Sum256(data)[:]`. -/
def sha256Bytes (msg : List Nat) : List Nat :=
  ((chunks 64 (shaPad msg)).foldl shaCompress shaH0).map (beBytes 4) |>.flatten

/-- SHA-256 digest of the UTF-8 bytes of a string, the Go
`sha256.Sum256([]byte(s))[:]`. -/
def sha256Str (s : String) : List Nat := sha256Bytes (utf8Bytes s)

/-! ## Base32 (encoding/base32), RFC 4648 standard alphabet, no padding -/

/-- The RFC 4648 standard base32 alphabet used by Go's `base32.StdEncoding`. -/
def base32Alphabet : String := "ABCDEFGHIJKLMNOPQRSTUVWXYZ234567"

/-- The 8 bits of a byte, most significant first. -/
def byteBits (b : Nat) : List Bool :=
  [b / 128 % 2 = 1, b / 64 % 2 = 1, b / 32 % 2 = 1, b / 16 % 2 = 1,
   b / 8 % 2 = 1, b / 4 % 2 = 1, b / 2 % 2 = 1, b % 2 = 1]

/-- Value of a bit string read most significant bit first. -/
def bitsToNat (bs : List Bool) : Nat :=
  bs.foldl (fun acc b => 2 * acc + (if b then 1 else 0)) 0

/-- Go's `base32.StdEncoding.WithPadding(base32.NoPadding).EncodeToString`:
the byte stream is read as a bit stream, split into 5-bit groups (the last
group zero-padded on the right), and each group indexes the standard
alphabet; no trailing `=` padding characters are emitted. -/
def base32EncodeNoPad (bs : List Nat) : String :=
  let bits := (bs.map byteBits).flatten
  let groups := chunks 5 bits
  String.mk (groups.map (fun g =>
    base32Alphabet.data.getD (bitsToNat (g ++ List.replicate (5 - g.length) false)) 'A'))

/-! ## Store-side SQL surface

The persistent store is an external Postgres instance.  The repository
ships the SQL text it sends; the store executes a statement only when its
leading keyword is a SQL command verb and the relation it targets exists.
The schema (migrations) is not part of the corpus; the spec and the
delete query name the token relation `tokens`, and the other models name
`users` and `movies`. -/

/-- Words of a SQL statement string: whitespace-separated tokens with
tabs, carriage returns and newlines treated as spaces. -/
def sqlWords (q : String) : List String :=
  (goSplitSpace (String.mk (q.data.map (fun c =>
      if c = '\n' ∨ c = '\t' ∨ c = '\r' then ' ' else c)))).filter
    (fun w => w ≠ "")

/-- Leading command verbs Postgres recognises, as relevant here. -/
def sqlVerbs : List String := ["SELECT", "INSERT", "UPDATE", "DELETE"]

/-- Relations of the schema (modelled from the spec and the repository's
own queries; the migration files are not in the corpus). -/
def storeTables : List String := ["tokens", "users", "movies", "permissions", "users_permissions"]

/-- The relation a data-modifying statement targets: the word after
INSERT INTO, after DELETE FROM, or after UPDATE. -/
def sqlTargetTable (q : String) : String :=
  let ws := sqlWords q
  match ws.getD 0 "" with
  | "INSERT" => ws.getD 2 ""
  | "DELETE" => ws.getD 2 ""
  | "UPDATE" => ws.getD 1 ""
  | _ => ""

/-- Whether the store accepts a data-modifying statement: known leading
verb and existing target relation.  A statement failing either check is
rejected with an error and has no effect. -/
def storeAccepts (q : String) : Bool :=
  sqlVerbs.contains ((sqlWords q).getD 0 "") && storeTables.contains (sqlTargetTable q)

/-! ## Validator (internal/validator)

The validator package is referenced by the data package; its source file
is not in the corpus.  Modelled from the spec and its call sites: a
validator accumulates keyed error messages; a check that fails adds its
message under its key unless the key is already present; the validator is
valid when no errors were recorded. -/

/-- Modelled from the spec: the internal validator, a map of keyed error
messages (its source file is absent from the corpus). -/
structure Validator where
  errors : List (String × String)
deriving DecidableEq, Repr

/-- Modelled from the spec: `validator.New()`, an empty validator. -/
def Validator.New : Validator := ⟨[]⟩

/-- Modelled from the spec: `v.AddError(key, message)` records the message
unless the key already has one. -/
def Validator.AddError (v : Validator) (key message : String) : Validator :=
  if (v.errors.find? (fun p => p.1 == key)).isSome then v
  else ⟨v.errors ++ [(key, message)]⟩

/-- Modelled from the spec: `v.Check(ok, key, message)` adds the error
when the check is false. -/
def Validator.Check (v : Validator) (ok : Bool) (key message : String) : Validator :=
  if ok then v else v.AddError key message

/-- Modelled from the spec: `v.Valid()` holds when no error was recorded. -/
def Validator.Valid (v : Validator) : Bool := v.errors.isEmpty

/-! ## Tokens (internal/data/tokens.go) -/

/-- Token scope constant (tokens.go). -/
def ScopeActivation : String := "activation"

/-- Token scope constant used by the authenticate middleware
(`data.ScopeAuthentication`; its defining line is in a later revision of
tokens.go, absent from the corpus, but its value is fixed by the spec's
scope tag "authentication"). -/
def ScopeAuthentication : String := "authentication"

/-- The Token struct of tokens.go.  Expiry is modelled in rational
seconds; Hash is the byte list `sha256.Sum256([]byte(Plaintext))[:]`. -/
structure Token where
  Plaintext : String
  Hash : List Nat
  UserID : Int
  Expiry : ℚ
  Scope : String
deriving DecidableEq, Repr

/-- A stored credential row `{hash, user_id, expiry, scope}`. -/
structure TokenRow where
  hash : List Nat
  userID : Int
  expiry : ℚ
  scope : String
deriving DecidableEq, Repr

/-- The tokens.go `generatedToken` function.  The CSPRNG (`rand.Read`) and
the clock (`time.Now()`) are injected: `csprng n` yields the `n` random
bytes requested or `none` on entropy-source failure; `now` is the current
time.  The code requests exactly 16 random bytes, base32-encodes them
without padding into Plaintext, and hashes the plaintext with SHA-256. -/
def generatedToken (userID : Int) (ttl : ℚ) (scope : String) (now : ℚ)
    (csprng : Nat → Option (List Nat)) : Option Token :=
  match csprng 16 with
  | none => none
  | some randomBytes =>
      let plaintext := base32EncodeNoPad randomBytes
      some { Plaintext := plaintext
             Hash := sha256Str plaintext
             UserID := userID
             Expiry := now + ttl
             Scope := scope }

/-- The tokens.go `ValidateTokenPlainText`: the plaintext must be
non-empty and exactly 26 bytes long (Go `len`, i.e. UTF-8 bytes).  No
other shape of check — in particular no charset check — is performed. -/
def ValidateTokenPlainText (v : Validator) (tokenPlainText : String) : Validator :=
  (v.Check (tokenPlainText != "") "token" "must be provided").Check
    ((utf8Bytes tokenPlainText).length == 26) "token" "must be 26 bytes long"

/-- The SQL text of `TokenModel.Insert`, copied from tokens.go.  Note the
target relation is spelled `tokesn`. -/
def tokenInsertQuery : String :=
  "\n\tINSERT INTO tokesn (hash, user_id, expiry, scope)\n\tVALUES ($1, $2, $3, $4)\n\t"

/-- The SQL text of `TokenModel.DeleteAllForUser`, copied from tokens.go.
Note the leading keyword is spelled `DLETE`. -/
def deleteAllForUserQuery : String :=
  "\n\tDLETE FROM tokens\n\tWHERE scope = $1 AND user_id = $2\n\t"

/-- The tokens.go `TokenModel.Insert` against the modelled store: when the
store accepts the statement the row `{hash, user_id, expiry, scope}` is
appended; otherwise the table is unchanged and an error is returned. -/
def TokenModel.Insert (table : List TokenRow) (token : Token) :
    List TokenRow × Except Unit Unit :=
  if storeAccepts tokenInsertQuery then
    (table ++ [{ hash := token.Hash, userID := token.UserID,
                 expiry := token.Expiry, scope := token.Scope }], .ok ())
  else (table, .error ())

/-- The tokens.go `TokenModel.New`: generate a token, then insert it. -/
def TokenModel.New (table : List TokenRow) (userID : Int) (ttl : ℚ) (scope : String)
    (now : ℚ) (csprng : Nat → Option (List Nat)) :
    List TokenRow × Except Unit Token :=
  match generatedToken userID ttl scope now csprng with
  | none => (table, .error ())
  | some token =>
      match TokenModel.Insert table token with
      | (t, .ok _) => (t, .ok token)
      | (t, .error e) => (t, .error e)

/-- The tokens.go `TokenModel.DeleteAllForUser` against the modelled
store: when the store accepts the statement, every row of the given scope
and user is removed; otherwise the table is unchanged and an error is
returned. -/
def TokenModel.DeleteAllForUser (table : List TokenRow) (scope : String) (userID : Int) :
    List TokenRow × Except Unit Unit :=
  if storeAccepts deleteAllForUserQuery then
    (table.filter (fun r => !(r.scope == scope && r.userID == userID)), .ok ())
  else (table, .error ())

/-! ## Users and identities -/

/-- A stored user as the middleware and gates observe it.  The field
`anonymous` models pointer-equality with the well-known sentinel
`data.AnonymousUser` (a zero-valued User; its defining file is a revision
of users.go absent from the corpus, modelled from the spec's Anonymous
sentinel): real users carry `anonymous = false`. -/
structure GoUser where
  ID : Int
  Activated : Bool
  anonymous : Bool
deriving DecidableEq, Repr

/-- Modelled from the spec: the well-known `data.AnonymousUser` sentinel,
a zero-valued user carrying no permissions. -/
def AnonymousUser : GoUser := { ID := 0, Activated := false, anonymous := true }

/-- The `User.IsAnonymous()` check: pointer-equality with the sentinel. -/
def GoUser.IsAnonymous (u : GoUser) : Bool := u.anonymous

/-- Modelled from the spec: `UserModel.GetForToken(scope, plaintext)`
(defined in a revision of users.go absent from the corpus).  It computes
the SHA-256 hash of the presented plaintext and looks up a credential row
matching hash, scope and `expiry > now` in one query joined with the
users table; any miss — unknown hash, expired row, or wrong scope — is
the `ErrRecordNotFound` outcome, here `none`. -/
def getForToken (tokens : List TokenRow) (users : List GoUser) (now : ℚ)
    (scope tokenPlaintext : String) : Option GoUser :=
  let h := sha256Str tokenPlaintext
  match tokens.find? (fun r => r.hash == h && r.scope == scope && decide (now < r.expiry)) with
  | none => none
  | some r => users.find? (fun u => u.ID == r.userID)

/-! ## The authenticate middleware (chapter-16/16.2 cmd/api/middleware.go) -/

/-- Observable outcome of the authenticate middleware: pass the request
on with an identity in the context, reply 401 invalid authentication
token, or reply 500. -/
inductive AuthOutcome where
  | nextWith (u : GoUser)
  | invalidAuthenticationToken
  | serverError
deriving DecidableEq, Repr

/-- The authenticate middleware of middleware.go.  A missing header sets
the Anonymous identity and passes the request on; a header not of the
form "Bearer token", or a token failing `ValidateTokenPlainText`,
is answered with the invalid-authentication-token response; otherwise the
user is fetched by `GetForToken` with `ScopeAuthentication`, a not-found
miss is again the invalid-authentication-token response, and a hit passes
the request on with that user. -/
def authenticate (tokens : List TokenRow) (users : List GoUser) (now : ℚ)
    (authorizationHeader : String) : AuthOutcome :=
  if authorizationHeader = "" then .nextWith AnonymousUser
  else
    let headerParts := goSplitSpace authorizationHeader
    if headerParts.length ≠ 2 ∨ headerParts.getD 0 "" ≠ "Bearer" then
      .invalidAuthenticationToken
    else
      let token := headerParts.getD 1 ""
      if !(ValidateTokenPlainText Validator.New token).Valid then
        .invalidAuthenticationToken
      else
        match getForToken tokens users now ScopeAuthentication token with
        | none => .invalidAuthenticationToken
        | some user => .nextWith user

/-! ## Permissions (chapter-17/17.1 internal/data/permissions.go) -/

/-- The Permissions slice of permission codes. -/
abbrev Permissions := List String

/-- The permissions.go `Permissions.Include`: a linear scan comparing the
code against each element with string equality. -/
def Permissions.Include : Permissions → String → Bool
  | [], _ => false
  | c :: rest, code => if code == c then true else Permissions.Include rest code

/-! ## The permission gates (middleware.go) -/

/-- Observable outcome of the gate chain around a handler. -/
inductive GateOutcome where
  | handled
  | authenticationRequired
  | inactiveAccount
  | notPermitted
  | serverError
deriving DecidableEq, Repr

/-- The middleware.go `requireAuthenticatedUser`: reply 401
authentication-required when the context identity is Anonymous, otherwise
run the next handler. -/
def requireAuthenticatedUser (next : GoUser → GateOutcome) (user : GoUser) : GateOutcome :=
  if user.IsAnonymous then .authenticationRequired else next user

/-- The middleware.go `requireActivatedUser`: reply 403 inactive-account
when the user is not activated, wrapped in `requireAuthenticatedUser`. -/
def requireActivatedUser (next : GoUser → GateOutcome) : GoUser → GateOutcome :=
  requireAuthenticatedUser (fun user =>
    if !user.Activated then .inactiveAccount else next user)

/-- The middleware.go `requiredPermission`: fetch the user's permission
codes fresh from the store (`getAllForUser`, which may fail), reply 403
not-permitted when the required code is absent, and wrap the whole check
in `requireActivatedUser`. -/
def requiredPermission (getAllForUser : Int → Except Unit Permissions)
    (code : String) (next : GoUser → GateOutcome) : GoUser → GateOutcome :=
  requireActivatedUser (fun user =>
    match getAllForUser user.ID with
    | .error _ => .serverError
    | .ok permissions =>
        if !(permissions.Include code) then .notPermitted else next user)

/-! ## The rate limiter (middleware.go rateLimit)

The per-key bucket is a `golang.org/x/time/rate` Limiter, an external
library; its documented token-bucket semantics (a bucket of capacity
`burst` refilling continuously at `rps` tokens per second, `Allow`
withdrawing one token when at least one is available) is modelled here,
as the spec describes the same algorithm.  Times are rational seconds. -/

/-- Rate-limiter configuration (`app.config.limiter`). -/
structure LimiterConfig where
  rps : ℚ
  burst : Nat
  enabled : Bool
deriving DecidableEq, Repr

/-- Per-client state: the bucket fill level with the time it was last
advanced, plus the middleware's own lastSeen stamp. -/
structure ClientRateState where
  tokens : ℚ
  last : ℚ
  lastSeen : ℚ
deriving DecidableEq, Repr

/-- Continuous refill of a bucket advanced from `last` to `now`. -/
def refillTokens (rps : ℚ) (burst : Nat) (tokens last now : ℚ) : ℚ :=
  min (burst : ℚ) (tokens + rps * (now - last))

/-- The documented `rate.Limiter.Allow` at time `now`: refill, then
withdraw one token when at least one is available. -/
def limiterAllow (rps : ℚ) (burst : Nat) (st : ClientRateState) (now : ℚ) :
    Bool × ClientRateState :=
  let t := refillTokens rps burst st.tokens st.last now
  if 1 ≤ t then (true, { st with tokens := t - 1, last := now })
  else (false, { st with tokens := t, last := now })

/-- The clients map of the rateLimit closure, keyed by client IP. -/
abbrev ClientMap := List (String × ClientRateState)

/-- Lookup in the clients map. -/
def mapLookup (m : ClientMap) (ip : String) : Option ClientRateState :=
  (m.find? (fun p => p.1 == ip)).map (fun p => p.2)

/-- Store a state under a key: replace the existing entry or append. -/
def mapSet (m : ClientMap) (ip : String) (st : ClientRateState) : ClientMap :=
  if (m.find? (fun p => p.1 == ip)).isSome then
    m.map (fun p => if p.1 == ip then (ip, st) else p)
  else m ++ [(ip, st)]

/-- One pass of the rateLimit handler for a request from `ip` at time
`now`: when limiting is disabled the request passes untouched; otherwise
an unseen key is given a fresh full bucket, lastSeen is stamped, and the
bucket's Allow decides admission (false is the 429 response). -/
def rateLimitAdmit (cfg : LimiterConfig) (m : ClientMap) (ip : String) (now : ℚ) :
    Bool × ClientMap :=
  if !cfg.enabled then (true, m)
  else
    let st0 := match mapLookup m ip with
      | some st => st
      | none => { tokens := (cfg.burst : ℚ), last := now, lastSeen := now }
    let st1 := { st0 with lastSeen := now }
    let res := limiterAllow cfg.rps cfg.burst st1 now
    (res.1, mapSet m ip res.2)

/-- A sequence of admission attempts for one key at the given times,
threading the map; returns the admission verdicts and the final map. -/
def admitSeq (cfg : LimiterConfig) (m : ClientMap) (ip : String) :
    List ℚ → List Bool × ClientMap
  | [] => ([], m)
  | t :: ts =>
      let r := rateLimitAdmit cfg m ip t
      let rest := admitSeq cfg r.2 ip ts
      (r.1 :: rest.1, rest.2)

/-- The background sweep of the rateLimit goroutine, run once per minute:
delete every client not seen within the last three minutes (180 s). -/
def sweepClients (m : ClientMap) (now : ℚ) : ClientMap :=
  m.filter (fun p => !(decide (180 < now - p.2.lastSeen)))

/-! ## Optimistic-concurrency updates (movies.go, users.go) -/

/-- A movie row as stored; Runtime is the int32 minute count, Version the
optimistic counter. -/
structure MovieRow where
  ID : Int
  Title : String
  Year : Int
  Runtime : Int
  Genres : List String
  Version : Int
deriving DecidableEq, Repr

/-- Update errors surfaced by the models. -/
inductive UpdateErr where
  | editConflict
  | duplicateEmail
deriving DecidableEq, Repr

/-- Store-side execution of the movies.go conditional update: rows with
the movie's ID and expected Version get the new fields and
`version = version + 1`; RETURNING yields the new version, or no row
(`none`) when nothing matched. -/
def movieUpdateRun (table : List MovieRow) (movie : MovieRow) :
    List MovieRow × Option Int :=
  match table.find? (fun r => r.ID == movie.ID && r.Version == movie.Version) with
  | none => (table, none)
  | some _ =>
      (table.map (fun r =>
        if r.ID == movie.ID && r.Version == movie.Version then
          { r with Title := movie.Title, Year := movie.Year,
                   Runtime := movie.Runtime, Genres := movie.Genres,
                   Version := r.Version + 1 }
        else r),
       some (movie.Version + 1))

/-- The movies.go `MovieModel.Update`: run the conditional update; a
no-rows result is `ErrEditConflict`; on success the scanned new version
is written back into the movie. -/
def MovieModel.Update (table : List MovieRow) (movie : MovieRow) :
    List MovieRow × Except UpdateErr MovieRow :=
  match movieUpdateRun table movie with
  | (t, none) => (t, .error .editConflict)
  | (t, some v) => (t, .ok { movie with Version := v })

/-- A user row as stored. -/
structure UserRow where
  ID : Int
  Name : String
  Email : String
  PasswordHash : List Nat
  Activated : Bool
  Version : Int
deriving DecidableEq, Repr

/-- Result of the store executing the users.go conditional update,
including the UNIQUE(email) constraint check on the updated row. -/
inductive UserUpdateResult where
  | updated (newTable : List UserRow) (newVersion : Int)
  | noRows
  | dupEmail
deriving Repr

/-- Store-side execution of the users.go conditional update: a row with
the user's ID and expected Version is rewritten with the new fields and
`version = version + 1`, unless the new email collides with a different
row (unique-constraint violation); no matching row yields no rows. -/
def userUpdateRun (table : List UserRow) (user : UserRow) : UserUpdateResult :=
  match table.find? (fun r => r.ID == user.ID && r.Version == user.Version) with
  | none => .noRows
  | some _ =>
      if table.any (fun r => r.ID != user.ID && r.Email == user.Email) then .dupEmail
      else
        .updated
          (table.map (fun r =>
            if r.ID == user.ID && r.Version == user.Version then
              { r with Name := user.Name, Email := user.Email,
                       PasswordHash := user.PasswordHash,
                       Activated := user.Activated,
                       Version := r.Version + 1 }
            else r))
          (user.Version + 1)

/-- The users.go `UserModel.Update`: the unique-violation error maps to
`ErrDuplicateEmail`, a no-rows result to `ErrEditConflict`, and on
success the scanned new version is written back into the user. -/
def UserModel.Update (table : List UserRow) (user : UserRow) :
    List UserRow × Except UpdateErr UserRow :=
  match userUpdateRun table user with
  | .dupEmail => (table, .error .duplicateEmail)
  | .noRows => (table, .error .editConflict)
  | .updated t v => (t, .ok { user with Version := v })

/-! ## User validation (users.go ValidateUser) -/

/-- The users.go password struct: an optional plaintext (a Go *string)
and the bcrypt hash byte slice, `none` when the Go slice is nil. -/
structure Password where
  plaintext : Option String
  hash : Option (List Nat)
deriving DecidableEq, Repr

/-- The users.go User struct as ValidateUser consumes it. -/
structure DataUser where
  ID : Int
  Name : String
  Email : String
  Password : Password
  Activated : Bool
  Version : Int
deriving DecidableEq, Repr

/-- The users.go `ValidateEmail`.  The regular-expression test
`validator.Matches(email, validator.EmailRX)` lives in the validator
package, absent from the corpus, so it is passed in as `emailRX`. -/
def ValidateEmail (emailRX : String → Bool) (v : Validator) (email : String) : Validator :=
  (v.Check (email != "") "email" "must be provided").Check (emailRX email)
    "email" "must be a valid email address"

/-- The users.go `ValidatePasswordPlainText`: non-empty, at least 8 and
at most 72 bytes. -/
def ValidatePasswordPlainText (v : Validator) (password : String) : Validator :=
  ((v.Check (password != "") "passwrod" "must be provided").Check
      (8 ≤ (utf8Bytes password).length) "password" "must be atleast 8 bytes long").Check
    ((utf8Bytes password).length ≤ 72) "password" "must not be more than 72 bytes long"

/-- The users.go `ValidateUser`: name checks, email checks, plaintext
password checks when a plaintext is present, and finally a panic —
modelled as the `.error` branch carrying the panic message — when the
password hash slice is nil; otherwise the validator is returned. -/
def ValidateUser (emailRX : String → Bool) (v : Validator) (user : DataUser) :
    Except String Validator :=
  let v1 := (v.Check (user.Name != "") "name" "mst be provided").Check
    ((utf8Bytes user.Name).length ≤ 500) "name" "must not be more than 500 bytes long"
  let v2 := ValidateEmail emailRX v1 user.Email
  let v3 := match user.Password.plaintext with
    | some p => ValidatePasswordPlainText v2 p
    | none => v2
  if user.Password.hash = none then .error "missing password hash for user"
  else .ok v3

/-! ## Concrete inputs used to instantiate the theorems -/

/-- A 26-byte bearer value whose characters are outside the base32
alphabet: correct length, wrong charset. -/
def wrongCharsetToken : String := "!!!!!!!!!!!!!!!!!!!!!!!!!!"

/-- A credential row whose hash matches `wrongCharsetToken`. -/
def wrongCharsetRow : TokenRow :=
  { hash := sha256Str wrongCharsetToken, userID := 7, expiry := 1, scope := ScopeAuthentication }

/-- A stored activated user with ID 7. -/
def sampleUser : GoUser := { ID := 7, Activated := true, anonymous := false }

/-- A valid-format 26-byte bearer value (the base32 encoding of 16 zero
bytes). -/
def sampleToken : String := base32EncodeNoPad (List.replicate 16 0)

/-- A credential row for `sampleToken` that is already expired at time 5. -/
def expiredRow : TokenRow :=
  { hash := sha256Str sampleToken, userID := 7, expiry := 1, scope := ScopeAuthentication }

/-- A credential row for `sampleToken` of activation (not authentication)
scope, far from expiry. -/
def wrongScopeRow : TokenRow :=
  { hash := sha256Str sampleToken, userID := 7, expiry := 1000, scope := ScopeActivation }

/-- A one-movie table for instantiating the update theorems. -/
def sampleMovieTable : List MovieRow :=
  [{ ID := 1, Title := "Casablanca", Year := 1942, Runtime := 102, Genres := ["drama"], Version := 3 }]

/-- An update of movie 1 carrying the stale expected version 2. -/
def staleMovie : MovieRow :=
  { ID := 1, Title := "Casablanca", Year := 1942, Runtime := 102, Genres := ["drama"], Version := 2 }

/-- A one-user table for instantiating the update theorems. -/
def sampleUserTable : List UserRow :=
  [{ ID := 9, Name := "Alice", Email := "a@example.com", PasswordHash := [1, 2, 3],
     Activated := true, Version := 4 }]

/-- An update of user 9 carrying the matching expected version 4. -/
def freshUserUpdate : UserRow :=
  { ID := 9, Name := "Alice B", Email := "a@example.com", PasswordHash := [1, 2, 3],
    Activated := true, Version := 4 }

/-- An update of user 9 carrying the stale expected version 1. -/
def staleUserUpdate : UserRow :=
  { ID := 9, Name := "Alice B", Email := "a@example.com", PasswordHash := [1, 2, 3],
    Activated := true, Version := 1 }

/-- A rate-limiter configuration: 2 permits per second, burst 3, enabled. -/
def sampleCfg : LimiterConfig := { rps := 2, burst := 3, enabled := true }

/-- A clients map holding one entry last seen at time 0. -/
def staleClientMap : ClientMap :=
  [("192.0.2.1", { tokens := 3, last := 0, lastSeen := 0 })]

/-! ## Helper lemmas -/

/-- Membership reading of the permissions.go linear scan. -/
theorem include_iff_mem (p : Permissions) (code : String) :
    p.Include code = true ↔ code ∈ p := by
  induction p with
  | nil => simp [Permissions.Include]
  | cons c rest ih =>
      by_cases h : code = c
      · simp [Permissions.Include, h]
      · simp [Permissions.Include, h, ih]

/-- The token-plaintext validator passes exactly the non-empty 26-byte
values. -/
theorem validateTokenPlainText_valid (tok : String) :
    (ValidateTokenPlainText Validator.New tok).Valid =
      ((tok != "") && ((utf8Bytes tok).length == 26)) := by
  by_cases h1 : tok = "" <;>
    by_cases h2 : (utf8Bytes tok).length = 26 <;>
      simp [ValidateTokenPlainText, Validator.Check, Validator.AddError,
            Validator.New, Validator.Valid, h1, h2]

/-- Looking up a key just stored yields the stored state. -/
theorem mapLookup_mapSet_self (m : ClientMap) (ip : String) (st : ClientRateState) :
    mapLookup (mapSet m ip st) ip = some st := by
  unfold mapSet
  by_cases h : (m.find? (fun p => p.1 == ip)).isSome
  · simp only [h, if_pos]
    induction m with
    | nil => simp [List.find?] at h
    | cons p rest ih =>
        by_cases hp : p.1 = ip
        · simp [mapLookup, List.find?, hp]
        · have hp' : (p.1 == ip) = false := by simp [hp]
          have hrest : (rest.find? (fun q => q.1 == ip)).isSome := by
            simpa [List.find?, hp'] using h
          simpa [mapLookup, List.find?, hp'] using ih hrest
  · simp only [h, if_neg, Bool.false_eq_true, not_false_eq_true]
    induction m with
    | nil => simp [mapLookup, List.find?]
    | cons p rest ih =>
        have hp' : (p.1 == ip) = false := by
          rcases hfp : (p.1 == ip) with _ | _
          · rfl
          · exfalso; apply h; simp [List.find?, hfp]
        have hrest : ¬ (rest.find? (fun q => q.1 == ip)).isSome := by
          intro hs; apply h; simp [List.find?, hp', hs]
        simpa [mapLookup, List.find?, hp'] using ih hrest

/-- A key absent from a map stays absent after filtering. -/
theorem mapLookup_filter_none (m : ClientMap) (ip : String)
    (pred : String × ClientRateState → Bool) (h : mapLookup m ip = none) :
    mapLookup (m.filter pred) ip = none := by
  induction m with
  | nil => simp [mapLookup]
  | cons p rest ih =>
      by_cases hp : p.1 = ip
      · simp [mapLookup, List.find?, hp] at h
      · have hp' : (p.1 == ip) = false := by simp [hp]
        have h' : mapLookup rest ip = none := by
          simpa [mapLookup, List.find?, hp'] using h
        by_cases hpred : pred p
        · simpa [mapLookup, List.filter, hpred, List.find?, hp'] using ih h'
        · simpa [mapLookup, List.filter, hpred] using ih h'

/-- A key not among the stored keys has no entry. -/
theorem mapLookup_not_mem (m : ClientMap) (ip : String)
    (h : ip ∉ m.map Prod.fst) : mapLookup m ip = none := by
  induction m with
  | nil => simp [mapLookup]
  | cons p rest ih =>
      have hp : p.1 ≠ ip := by
        intro he; exact h (by simp [he])
      have hp' : (p.1 == ip) = false := by simp [hp]
      have hrest : ip ∉ rest.map Prod.fst := by
        intro hm; exact h (by simp [hm])
      simpa [mapLookup, List.find?, hp'] using ih hrest

/-- With unique keys, an entry whose state the filter rejects is wholly
absent after filtering. -/
theorem mapLookup_filter_stale (m : ClientMap) (ip : String) (st : ClientRateState)
    (pred : String × ClientRateState → Bool)
    (hnd : (m.map Prod.fst).Nodup) (h : mapLookup m ip = some st)
    (hp : ∀ k, pred (k, st) = false) :
    mapLookup (m.filter pred) ip = none := by
  induction m with
  | nil => simp [mapLookup] at h
  | cons p rest ih =>
      by_cases hk : p.1 = ip
      · have hst : p.2 = st := by
          simpa [mapLookup, List.find?, hk] using h
        have hdrop : pred p = false := by
          have : p = (p.1, st) := by rw [← hst]
          rw [this]; exact hp p.1
        have hnotin : ip ∉ rest.map Prod.fst := by
          rw [← hk]
          exact (List.nodup_cons.mp (by simpa using hnd)).1
        have hnone : mapLookup rest ip = none := mapLookup_not_mem rest ip hnotin
        simpa [List.filter, hdrop] using mapLookup_filter_none rest ip pred hnone
      · have hk' : (p.1 == ip) = false := by simp [hk]
        have h' : mapLookup rest ip = some st := by
          simpa [mapLookup, List.find?, hk'] using h
        have hnd' : (rest.map Prod.fst).Nodup := (List.nodup_cons.mp (by simpa using hnd)).2
        by_cases hpred : pred p
        · simpa [mapLookup, List.filter, hpred, List.find?, hk'] using ih hnd' h'
        · simpa [mapLookup, List.filter, hpred] using ih hnd' h'

/-- An admission check on a tracked key runs the bucket of its entry with
the lastSeen stamp refreshed. -/
theorem rateLimitAdmit_found (cfg : LimiterConfig) (m : ClientMap) (ip : String)
    (st : ClientRateState) (now : ℚ) (hen : cfg.enabled = true)
    (hlk : mapLookup m ip = some st) :
    rateLimitAdmit cfg m ip now =
      ((limiterAllow cfg.rps cfg.burst { st with lastSeen := now } now).1,
       mapSet m ip (limiterAllow cfg.rps cfg.burst { st with lastSeen := now } now).2) := by
  simp [rateLimitAdmit, hen, hlk]

/-- An admission check on an unseen key allocates a fresh full bucket and
runs it. -/
theorem rateLimitAdmit_fresh (cfg : LimiterConfig) (m : ClientMap) (ip : String)
    (now : ℚ) (hen : cfg.enabled = true) (hlk : mapLookup m ip = none) :
    rateLimitAdmit cfg m ip now =
      ((limiterAllow cfg.rps cfg.burst ⟨(cfg.burst : ℚ), now, now⟩ now).1,
       mapSet m ip (limiterAllow cfg.rps cfg.burst ⟨(cfg.burst : ℚ), now, now⟩ now).2) := by
  simp [rateLimitAdmit, hen, hlk]

/-- An admission check on a tracked key, with the entry's components
spelled out. -/
theorem rateLimitAdmit_found_explicit (cfg : LimiterConfig) (m : ClientMap) (ip : String)
    (c l s now : ℚ) (hen : cfg.enabled = true)
    (hlk : mapLookup m ip = some ⟨c, l, s⟩) :
    rateLimitAdmit cfg m ip now =
      ((limiterAllow cfg.rps cfg.burst ⟨c, l, now⟩ now).1,
       mapSet m ip (limiterAllow cfg.rps cfg.burst ⟨c, l, now⟩ now).2) := by
  simp [rateLimitAdmit, hen, hlk]

/-- Allow with no elapsed time: no refill happens, one token is withdrawn
when available. -/
theorem limiterAllow_now (rps : ℚ) (burst : Nat) (c s now : ℚ) (hc : c ≤ (burst : ℚ)) :
    limiterAllow rps burst ⟨c, now, s⟩ now =
      if 1 ≤ c then (true, ⟨c - 1, now, s⟩) else (false, ⟨c, now, s⟩) := by
  have ht : refillTokens rps burst c now now = c := by
    unfold refillTokens
    rw [sub_self, mul_zero, add_zero]
    exact min_eq_right hc
  by_cases h1 : 1 ≤ c <;> simp [limiterAllow, ht, h1]

/-- Allow on an empty bucket after waiting exactly one inter-arrival time
1/rps: the refill grants exactly one token, which is withdrawn. -/
theorem limiterAllow_refill_one (rps : ℚ) (burst : Nat) (s t : ℚ)
    (hr : 0 < rps) (hb : 1 ≤ burst) :
    limiterAllow rps burst ⟨0, t, s⟩ (t + 1 / rps) =
      (true, ⟨0, t + 1 / rps, s⟩) := by
  have hb' : (1 : ℚ) ≤ (burst : ℚ) := by exact_mod_cast hb
  have ht : refillTokens rps burst 0 t (t + 1 / rps) = 1 := by
    unfold refillTokens
    rw [add_sub_cancel_left, zero_add, mul_one_div, div_self (ne_of_gt hr)]
    exact min_eq_right hb'
  simp only [limiterAllow]
  rw [ht]
  norm_num

/-- Admission sequences split over list concatenation. -/
theorem admitSeq_append (cfg : LimiterConfig) (m : ClientMap) (ip : String)
    (l1 l2 : List ℚ) :
    admitSeq cfg m ip (l1 ++ l2) =
      ((admitSeq cfg m ip l1).1 ++ (admitSeq cfg (admitSeq cfg m ip l1).2 ip l2).1,
       (admitSeq cfg (admitSeq cfg m ip l1).2 ip l2).2) := by
  induction l1 generalizing m with
  | nil => simp [admitSeq]
  | cons t ts ih => simp [admitSeq, ih]

/-- Draining a bucket holding at least k tokens with k back-to-back
requests at its own refill instant: every request is admitted and exactly
k tokens are withdrawn. -/
theorem admit_drain (cfg : LimiterConfig) (ip : String) (t : ℚ)
    (hen : cfg.enabled = true) :
    ∀ (k : Nat) (m : ClientMap) (c s : ℚ), mapLookup m ip = some ⟨c, t, s⟩ →
      c ≤ (cfg.burst : ℚ) → (k : ℚ) ≤ c →
      ∃ m' s', admitSeq cfg m ip (List.replicate k t) = (List.replicate k true, m') ∧
        mapLookup m' ip = some ⟨c - k, t, s'⟩ := by
  intro k
  induction k with
  | zero =>
      intro m c s h hcb hk
      exact ⟨m, s, by simp [admitSeq], by simpa using h⟩
  | succ n ih =>
      intro m c s h hcb hk
      have hn : (0 : ℚ) ≤ (n : ℚ) := Nat.cast_nonneg n
      have hk' : ((n : ℚ) + 1) ≤ c := by push_cast at hk; linarith
      have h1c : (1 : ℚ) ≤ c := by linarith
      have hstep : rateLimitAdmit cfg m ip t = (true, mapSet m ip ⟨c - 1, t, t⟩) := by
        rw [rateLimitAdmit_found_explicit cfg m ip c t s t hen h,
            limiterAllow_now cfg.rps cfg.burst c t t hcb, if_pos h1c]
      obtain ⟨m', s', hseq, hlk⟩ := ih (mapSet m ip ⟨c - 1, t, t⟩) (c - 1) t
        (mapLookup_mapSet_self m ip ⟨c - 1, t, t⟩) (by linarith) (by linarith)
      refine ⟨m', s', ?_, ?_⟩
      · rw [List.replicate_succ, List.replicate_succ]
        simp only [admitSeq, hstep, hseq]
      · have hcast : c - 1 - (n : ℚ) = c - ((n + 1 : Nat) : ℚ) := by push_cast; ring
        rw [← hcast]; exact hlk

/-- C5: For every client key whose bucket starts full, issuing exactly
burst admission requests instantaneously all succeed, the next immediate
request is denied (the rate-limit-exceeded response), and after waiting
1/rate seconds exactly one more request succeeds (the one following it at
the same instant is denied again); the first request from an unseen key
allocates a fresh full bucket. -/
theorem C5_token_bucket_burst (cfg : LimiterConfig) (m : ClientMap) (ip : String) (t : ℚ)
    (hen : cfg.enabled = true) (hr : 0 < cfg.rps) (hb : 1 ≤ cfg.burst)
    (hfresh : mapLookup m ip = none) :
    (admitSeq cfg m ip (List.replicate cfg.burst t ++
        [t, t + 1 / cfg.rps, t + 1 / cfg.rps])).1 =
      List.replicate cfg.burst true ++ [false, true, false] := by
  have hbq : (1 : ℚ) ≤ (cfg.burst : ℚ) := by exact_mod_cast hb
  have hbq0 : (0 : ℚ) ≤ (cfg.burst : ℚ) := by positivity
  have hcast : ((cfg.burst - 1 : Nat) : ℚ) = (cfg.burst : ℚ) - 1 := by
    push_cast [hb]; ring
  -- the first request allocates a fresh full bucket and is admitted
  have hstep1 : rateLimitAdmit cfg m ip t =
      (true, mapSet m ip ⟨(cfg.burst : ℚ) - 1, t, t⟩) := by
    rw [rateLimitAdmit_fresh cfg m ip t hen hfresh,
        limiterAllow_now cfg.rps cfg.burst (cfg.burst : ℚ) t t (le_refl _), if_pos hbq]
  -- the remaining burst - 1 instantaneous requests drain the bucket to 0
  obtain ⟨m2, s2, hseq2, hlk2⟩ := admit_drain cfg ip t hen (cfg.burst - 1)
    (mapSet m ip ⟨(cfg.burst : ℚ) - 1, t, t⟩) ((cfg.burst : ℚ) - 1) t
    (mapLookup_mapSet_self m ip ⟨(cfg.burst : ℚ) - 1, t, t⟩)
    (by linarith) (by rw [hcast])
  have hlk2' : mapLookup m2 ip = some ⟨0, t, s2⟩ := by
    have hz : (cfg.burst : ℚ) - 1 - ((cfg.burst - 1 : Nat) : ℚ) = 0 := by
      rw [hcast]; ring
    rw [hz] at hlk2; exact hlk2
  -- the next immediate request is denied
  have hstep3 : rateLimitAdmit cfg m2 ip t = (false, mapSet m2 ip ⟨0, t, t⟩) := by
    rw [rateLimitAdmit_found_explicit cfg m2 ip 0 t s2 t hen hlk2',
        limiterAllow_now cfg.rps cfg.burst 0 t t hbq0, if_neg (by norm_num)]
  -- after waiting 1/rate seconds, exactly one token is back: admitted
  have hstep4 : rateLimitAdmit cfg (mapSet m2 ip ⟨0, t, t⟩) ip (t + 1 / cfg.rps) =
      (true, mapSet (mapSet m2 ip ⟨0, t, t⟩) ip ⟨0, t + 1 / cfg.rps, t + 1 / cfg.rps⟩) := by
    rw [rateLimitAdmit_found_explicit cfg (mapSet m2 ip ⟨0, t, t⟩) ip 0 t t
          (t + 1 / cfg.rps) hen (mapLookup_mapSet_self m2 ip ⟨0, t, t⟩),
        limiterAllow_refill_one cfg.rps cfg.burst (t + 1 / cfg.rps) t hr hb]
  -- and the request right after it at the same instant is denied again
  have hstep5 : rateLimitAdmit cfg
      (mapSet (mapSet m2 ip ⟨0, t, t⟩) ip ⟨0, t + 1 / cfg.rps, t + 1 / cfg.rps⟩) ip
      (t + 1 / cfg.rps) =
      (false, mapSet (mapSet (mapSet m2 ip ⟨0, t, t⟩) ip
          ⟨0, t + 1 / cfg.rps, t + 1 / cfg.rps⟩) ip ⟨0, t + 1 / cfg.rps, t + 1 / cfg.rps⟩) := by
    rw [rateLimitAdmit_found_explicit cfg _ ip 0 (t + 1 / cfg.rps) (t + 1 / cfg.rps)
          (t + 1 / cfg.rps) hen (mapLookup_mapSet_self _ ip _),
        limiterAllow_now cfg.rps cfg.burst 0 (t + 1 / cfg.rps) (t + 1 / cfg.rps) hbq0,
        if_neg (by norm_num)]
  -- assemble the full sequence
  have hrepl : List.replicate cfg.burst t = t :: List.replicate (cfg.burst - 1) t := by
    rw [show cfg.burst = cfg.burst - 1 + 1 from (Nat.sub_add_cancel hb).symm]
    rfl
  have hreplT : List.replicate cfg.burst true = true :: List.replicate (cfg.burst - 1) true := by
    rw [show cfg.burst = cfg.burst - 1 + 1 from (Nat.sub_add_cancel hb).symm]
    rfl
  have hhead : admitSeq cfg m ip (List.replicate cfg.burst t) =
      (List.replicate cfg.burst true, m2) := by
    rw [hrepl, hreplT]
    simp only [admitSeq, hstep1, hseq2]
  have htail : admitSeq cfg m2 ip [t, t + 1 / cfg.rps, t + 1 / cfg.rps] =
      ([false, true, false],
       mapSet (mapSet (mapSet m2 ip ⟨0, t, t⟩) ip
           ⟨0, t + 1 / cfg.rps, t + 1 / cfg.rps⟩) ip ⟨0, t + 1 / cfg.rps, t + 1 / cfg.rps⟩) := by
    simp only [admitSeq, hstep3, hstep4, hstep5]
  rw [admitSeq_append, hhead, htail]

/-- Witness for C5: with 2 permits per second, burst 3 and an unseen key,
the admission verdicts are exactly three successes, a denial, one success
after waiting half a second, and a denial. -/
theorem C5_token_bucket_burst_witness :
    (admitSeq sampleCfg [] "192.0.2.9" (List.replicate sampleCfg.burst 0 ++
        [0, 0 + 1 / sampleCfg.rps, 0 + 1 / sampleCfg.rps])).1 =
      List.replicate sampleCfg.burst true ++ [false, true, false] :=
  C5_token_bucket_burst sampleCfg [] "192.0.2.9" 0 rfl (by decide) (by decide) rfl

/-- C6: For every client key whose lastSeen timestamp is older than the
eviction threshold (three times the one-minute sweep interval: 180
seconds), the entry is absent from the clients map after the next sweep
runs, and a subsequent request from that key is treated as first-seen: it
is admitted out of a fresh full bucket, whose state after the admission
is a full bucket minus the one withdrawn token. -/
theorem C6_eviction_first_seen (cfg : LimiterConfig) (m : ClientMap) (ip : String)
    (st : ClientRateState) (now now' : ℚ)
    (hen : cfg.enabled = true) (hnd : (m.map Prod.fst).Nodup)
    (hlk : mapLookup m ip = some st) (hstale : 180 < now - st.lastSeen)
    (hb : 1 ≤ cfg.burst) :
    mapLookup (sweepClients m now) ip = none ∧
    (rateLimitAdmit cfg (sweepClients m now) ip now').1 = true ∧
    mapLookup (rateLimitAdmit cfg (sweepClients m now) ip now').2 ip =
      some ⟨(cfg.burst : ℚ) - 1, now', now'⟩ := by
  have hbq : (1 : ℚ) ≤ (cfg.burst : ℚ) := by exact_mod_cast hb
  have h1 : mapLookup (sweepClients m now) ip = none := by
    unfold sweepClients
    apply mapLookup_filter_stale m ip st _ hnd hlk
    intro k; simp [hstale]
  have hstep : rateLimitAdmit cfg (sweepClients m now) ip now' =
      (true, mapSet (sweepClients m now) ip ⟨(cfg.burst : ℚ) - 1, now', now'⟩) := by
    rw [rateLimitAdmit_fresh cfg _ ip now' hen h1,
        limiterAllow_now cfg.rps cfg.burst (cfg.burst : ℚ) now' now' (le_refl _),
        if_pos hbq]
  refine ⟨h1, ?_, ?_⟩
  · rw [hstep]
  · rw [hstep]; exact mapLookup_mapSet_self _ _ _

/-- Witness for C6: the entry last seen at time 0 is gone after the sweep
at time 200, and its next request at time 300 starts a fresh bucket. -/
theorem C6_eviction_first_seen_witness :
    mapLookup (sweepClients staleClientMap 200) "192.0.2.1" = none ∧
    (rateLimitAdmit sampleCfg (sweepClients staleClientMap 200) "192.0.2.1" 300).1 = true ∧
    mapLookup (rateLimitAdmit sampleCfg (sweepClients staleClientMap 200) "192.0.2.1" 300).2
        "192.0.2.1" = some ⟨(sampleCfg.burst : ℚ) - 1, 300, 300⟩ :=
  C6_eviction_first_seen sampleCfg staleClientMap "192.0.2.1" ⟨3, 0, 0⟩ 200 300
    rfl (by decide) rfl (by norm_num) (by decide)

/-- The conditional movie update: success exactly on a stored row with
the observed version; the stored and returned versions then advance by
exactly one; a version mismatch is a single EditConflict with no state
change. -/
theorem movieUpdate_spec (mtable : List MovieRow) (movie : MovieRow) :
    ((∃ m', (MovieModel.Update mtable movie).2 = .ok m') ↔
      ∃ r ∈ mtable, r.ID = movie.ID ∧ r.Version = movie.Version) ∧
    (∀ m', (MovieModel.Update mtable movie).2 = .ok m' →
      m'.Version = movie.Version + 1) ∧
    ((mtable.map MovieRow.ID).Nodup →
      ∀ r ∈ (MovieModel.Update mtable movie).1, r.ID = movie.ID →
        (∃ m', (MovieModel.Update mtable movie).2 = .ok m') →
        r.Version = movie.Version + 1) ∧
    ((¬ ∃ r ∈ mtable, r.ID = movie.ID ∧ r.Version = movie.Version) →
      MovieModel.Update mtable movie = (mtable, .error .editConflict)) := by
  cases hf : mtable.find? (fun r => r.ID == movie.ID && r.Version == movie.Version) with
  | none =>
      have hnone : ¬ ∃ r ∈ mtable, r.ID = movie.ID ∧ r.Version = movie.Version := by
        rintro ⟨r, hm, h1, h2⟩
        have := List.find?_eq_none.mp hf r hm
        simp [h1, h2] at this
      refine ⟨?_, ?_, ?_, ?_⟩
      · simp only [MovieModel.Update, movieUpdateRun, hf]
        constructor
        · rintro ⟨m', hm'⟩; simp at hm'
        · intro h; exact absurd h hnone
      · intro m' hm'
        simp [MovieModel.Update, movieUpdateRun, hf] at hm'
      · intro _ r _ _ hok
        obtain ⟨m', hm'⟩ := hok
        simp [MovieModel.Update, movieUpdateRun, hf] at hm'
      · intro _
        simp [MovieModel.Update, movieUpdateRun, hf]
  | some r0 =>
      have hmem := List.mem_of_find?_eq_some hf
      have hp := List.find?_some hf
      simp only [Bool.and_eq_true, beq_iff_eq] at hp
      have hupd : MovieModel.Update mtable movie =
          (mtable.map (fun r =>
            if r.ID == movie.ID && r.Version == movie.Version then
              { r with Title := movie.Title, Year := movie.Year,
                       Runtime := movie.Runtime, Genres := movie.Genres,
                       Version := r.Version + 1 }
            else r),
           .ok { movie with Version := movie.Version + 1 }) := by
        simp [MovieModel.Update, movieUpdateRun, hf]
      refine ⟨?_, ?_, ?_, ?_⟩
      · rw [hupd]
        constructor
        · intro _; exact ⟨r0, hmem, hp.1, hp.2⟩
        · intro _; exact ⟨{ movie with Version := movie.Version + 1 }, rfl⟩
      · intro m' hm'
        rw [hupd] at hm'
        simp only [Except.ok.injEq] at hm'
        rw [← hm']
      · intro hnd r hr hid _
        rw [hupd] at hr
        simp only at hr
        obtain ⟨r1, hr1mem, hr1eq⟩ := List.mem_map.mp hr
        by_cases hmatch : (r1.ID == movie.ID && r1.Version == movie.Version) = true
        · rw [if_pos hmatch] at hr1eq
          simp only [Bool.and_eq_true, beq_iff_eq] at hmatch
          rw [← hr1eq]
          simp [hmatch.2]
        · rw [if_neg hmatch] at hr1eq
          simp only [Bool.and_eq_true, beq_iff_eq, not_and] at hmatch
          exfalso
          have hid1 : r1.ID = movie.ID := by rw [hr1eq]; exact hid
          have hvne : r1.Version ≠ movie.Version := hmatch hid1
          have heq10 : r1 = r0 :=
            List.inj_on_of_nodup_map hnd hr1mem hmem (by rw [hid1, hp.1])
          rw [heq10] at hvne
          exact hvne hp.2
      · intro hne
        exact absurd ⟨r0, hmem, hp.1, hp.2⟩ hne

/-- The conditional user update: success only on a stored row with the
observed version; the stored and returned versions then advance by
exactly one; a version mismatch is a single EditConflict with no state
change (a unique-email violation is the separate DuplicateEmail error). -/
theorem userUpdate_spec (utable : List UserRow) (user : UserRow) :
    ((∃ u', (UserModel.Update utable user).2 = .ok u') →
      ∃ r ∈ utable, r.ID = user.ID ∧ r.Version = user.Version) ∧
    (∀ u', (UserModel.Update utable user).2 = .ok u' →
      u'.Version = user.Version + 1) ∧
    ((utable.map UserRow.ID).Nodup →
      ∀ r ∈ (UserModel.Update utable user).1, r.ID = user.ID →
        (∃ u', (UserModel.Update utable user).2 = .ok u') →
        r.Version = user.Version + 1) ∧
    ((¬ ∃ r ∈ utable, r.ID = user.ID ∧ r.Version = user.Version) →
      UserModel.Update utable user = (utable, .error .editConflict)) := by
  cases hf : utable.find? (fun r => r.ID == user.ID && r.Version == user.Version) with
  | none =>
      have hnone : ¬ ∃ r ∈ utable, r.ID = user.ID ∧ r.Version = user.Version := by
        rintro ⟨r, hm, h1, h2⟩
        have := List.find?_eq_none.mp hf r hm
        simp [h1, h2] at this
      refine ⟨?_, ?_, ?_, ?_⟩
      · rintro ⟨u', hu'⟩
        simp [UserModel.Update, userUpdateRun, hf] at hu'
      · intro u' hu'
        simp [UserModel.Update, userUpdateRun, hf] at hu'
      · intro _ r _ _ hok
        obtain ⟨u', hu'⟩ := hok
        simp [UserModel.Update, userUpdateRun, hf] at hu'
      · intro _
        simp [UserModel.Update, userUpdateRun, hf]
  | some r0 =>
      have hmem := List.mem_of_find?_eq_some hf
      have hp := List.find?_some hf
      simp only [Bool.and_eq_true, beq_iff_eq] at hp
      by_cases hdup : utable.any (fun r => r.ID != user.ID && r.Email == user.Email)
      · have hres : UserModel.Update utable user = (utable, .error .duplicateEmail) := by
          simp [UserModel.Update, userUpdateRun, hf, hdup]
        refine ⟨?_, ?_, ?_, ?_⟩
        · rintro ⟨u', hu'⟩; rw [hres] at hu'; simp at hu'
        · intro u' hu'; rw [hres] at hu'; simp at hu'
        · intro _ r _ _ hok
          obtain ⟨u', hu'⟩ := hok
          rw [hres] at hu'; simp at hu'
        · intro hne
          exact absurd ⟨r0, hmem, hp.1, hp.2⟩ hne
      · have hupd : UserModel.Update utable user =
            (utable.map (fun r =>
              if r.ID == user.ID && r.Version == user.Version then
                { r with Name := user.Name, Email := user.Email,
                         PasswordHash := user.PasswordHash,
                         Activated := user.Activated,
                         Version := r.Version + 1 }
              else r),
             .ok { user with Version := user.Version + 1 }) := by
          simp [UserModel.Update, userUpdateRun, hf, hdup]
        refine ⟨?_, ?_, ?_, ?_⟩
        · intro _; exact ⟨r0, hmem, hp.1, hp.2⟩
        · intro u' hu'
          rw [hupd] at hu'
          simp only [Except.ok.injEq] at hu'
          rw [← hu']
        · intro hnd r hr hid _
          rw [hupd] at hr
          simp only at hr
          obtain ⟨r1, hr1mem, hr1eq⟩ := List.mem_map.mp hr
          by_cases hmatch : (r1.ID == user.ID && r1.Version == user.Version) = true
          · rw [if_pos hmatch] at hr1eq
            simp only [Bool.and_eq_true, beq_iff_eq] at hmatch
            rw [← hr1eq]
            simp [hmatch.2]
          · rw [if_neg hmatch] at hr1eq
            simp only [Bool.and_eq_true, beq_iff_eq, not_and] at hmatch
            exfalso
            have hid1 : r1.ID = user.ID := by rw [hr1eq]; exact hid
            have hvne : r1.Version ≠ user.Version := hmatch hid1
            have heq10 : r1 = r0 :=
              List.inj_on_of_nodup_map hnd hr1mem hmem (by rw [hid1, hp.1])
            rw [heq10] at hvne
            exact hvne hp.2
        · intro hne
          exact absurd ⟨r0, hmem, hp.1, hp.2⟩ hne

/-- C1: For every versioned resource (movie or user) and every update
call carrying an expected version, the update succeeds only if the stored
version equals the expected version; on success the stored version
becomes expected + 1 and is returned to the caller; if zero rows match
(version changed or row deleted), Update returns ErrEditConflict, leaves
the table unchanged, and performs no retry. -/
theorem C1_optimistic_update (mtable : List MovieRow) (movie : MovieRow)
    (utable : List UserRow) (user : UserRow) :
    (((∃ m', (MovieModel.Update mtable movie).2 = .ok m') ↔
        ∃ r ∈ mtable, r.ID = movie.ID ∧ r.Version = movie.Version) ∧
     (∀ m', (MovieModel.Update mtable movie).2 = .ok m' →
        m'.Version = movie.Version + 1) ∧
     ((mtable.map MovieRow.ID).Nodup →
        ∀ r ∈ (MovieModel.Update mtable movie).1, r.ID = movie.ID →
          (∃ m', (MovieModel.Update mtable movie).2 = .ok m') →
          r.Version = movie.Version + 1) ∧
     ((¬ ∃ r ∈ mtable, r.ID = movie.ID ∧ r.Version = movie.Version) →
        MovieModel.Update mtable movie = (mtable, .error .editConflict))) ∧
    (((∃ u', (UserModel.Update utable user).2 = .ok u') →
        ∃ r ∈ utable, r.ID = user.ID ∧ r.Version = user.Version) ∧
     (∀ u', (UserModel.Update utable user).2 = .ok u' →
        u'.Version = user.Version + 1) ∧
     ((utable.map UserRow.ID).Nodup →
        ∀ r ∈ (UserModel.Update utable user).1, r.ID = user.ID →
          (∃ u', (UserModel.Update utable user).2 = .ok u') →
          r.Version = user.Version + 1) ∧
     ((¬ ∃ r ∈ utable, r.ID = user.ID ∧ r.Version = user.Version) →
        UserModel.Update utable user = (utable, .error .editConflict))) :=
  ⟨movieUpdate_spec mtable movie, userUpdate_spec utable user⟩

/-- Witness for C1: an update of movie 1 expecting the stale version 2
against a stored version 3, and an update of user 9 expecting the stale
version 1 against a stored version 4, each return EditConflict and leave
the table unchanged. -/
theorem C1_optimistic_update_witness :
    MovieModel.Update sampleMovieTable staleMovie =
      (sampleMovieTable, .error .editConflict) ∧
    UserModel.Update sampleUserTable staleUserUpdate =
      (sampleUserTable, .error .editConflict) :=
  ⟨(C1_optimistic_update sampleMovieTable staleMovie sampleUserTable staleUserUpdate).1.2.2.2
      (by decide),
   (C1_optimistic_update sampleMovieTable staleMovie sampleUserTable staleUserUpdate).2.2.2.2
      (by decide)⟩

/-- C9: For every request that carries no Authorization header at all,
the authenticate middleware does not reject the request: it sets the
Anonymous identity in the request context and invokes the next handler,
deferring any rejection to the downstream permission gates. -/
theorem C9_missing_header_anonymous (tokens : List TokenRow) (users : List GoUser)
    (now : ℚ) :
    authenticate tokens users now "" = .nextWith AnonymousUser := by
  simp [authenticate]

/-- C10: For every user value whose password hash field is nil,
ValidateUser panics (the error branch carrying the panic message) instead
of returning a validation result; for every user with a non-nil hash,
ValidateUser never panics, whatever the email regular expression, the
incoming validator and the other fields are. -/
theorem C10_validateUser_panic (emailRX : String → Bool) (v : Validator) (user : DataUser) :
    (user.Password.hash = none →
      ValidateUser emailRX v user = .error "missing password hash for user") ∧
    (user.Password.hash ≠ none →
      ∃ v', ValidateUser emailRX v user = .ok v') := by
  constructor
  · intro h; simp [ValidateUser, h]
  · intro h
    obtain ⟨hs, hh⟩ := Option.ne_none_iff_exists'.mp h
    cases hp : user.Password.plaintext with
    | some p => exact ⟨_, by simp only [ValidateUser, hh, hp]; rfl⟩
    | none => exact ⟨_, by simp only [ValidateUser, hh, hp]; rfl⟩

/-- Witness for C10: a user with a nil hash aborts with the panic
message; the same user with hash bytes present validates to a result. -/
theorem C10_validateUser_panic_witness :
    ValidateUser (fun _ => true) Validator.New
        { ID := 1, Name := "Bob", Email := "b@example.com",
          Password := { plaintext := some "secret123", hash := none },
          Activated := false, Version := 1 } =
      .error "missing password hash for user" ∧
    ∃ v', ValidateUser (fun _ => true) Validator.New
        { ID := 1, Name := "Bob", Email := "b@example.com",
          Password := { plaintext := some "secret123", hash := some [1, 2] },
          Activated := false, Version := 1 } = .ok v' :=
  ⟨(C10_validateUser_panic (fun _ => true) Validator.New
      { ID := 1, Name := "Bob", Email := "b@example.com",
        Password := { plaintext := some "secret123", hash := none },
        Activated := false, Version := 1 }).1 rfl,
   (C10_validateUser_panic (fun _ => true) Validator.New
      { ID := 1, Name := "Bob", Email := "b@example.com",
        Password := { plaintext := some "secret123", hash := some [1, 2] },
        Activated := false, Version := 1 }).2 (by simp)⟩

/-- C4: For every request passing through requiredPermission(code), the
wrapped handler is invoked if and only if the context identity is not
Anonymous, the user's activation flag is true, and the per-request lookup
of the user's permission set succeeds and contains code under exact
string match; otherwise the request fails with AuthenticationRequired,
InactiveAccount, or PermissionDenied respectively, in that fixed order
(or the store-failure server error), and the handler is never reached. -/
theorem C4_permission_gate (getAllForUser : Int → Except Unit Permissions)
    (code : String) (user : GoUser) :
    (requiredPermission getAllForUser code (fun _ => .handled) user = .handled ↔
      user.anonymous = false ∧ user.Activated = true ∧
        ∃ ps, getAllForUser user.ID = .ok ps ∧ ps.Include code = true) ∧
    (user.anonymous = true →
      requiredPermission getAllForUser code (fun _ => .handled) user =
        .authenticationRequired) ∧
    (user.anonymous = false → user.Activated = false →
      requiredPermission getAllForUser code (fun _ => .handled) user =
        .inactiveAccount) ∧
    (user.anonymous = false → user.Activated = true →
      ∀ ps, getAllForUser user.ID = .ok ps → ps.Include code = false →
        requiredPermission getAllForUser code (fun _ => .handled) user =
          .notPermitted) ∧
    (∀ ps : Permissions, ps.Include code = true ↔ code ∈ ps) := by
  refine ⟨?_, ?_, ?_, ?_, fun ps => include_iff_mem ps code⟩
  · cases hanon : user.anonymous with
    | true =>
        simp [requiredPermission, requireActivatedUser, requireAuthenticatedUser,
              GoUser.IsAnonymous, hanon]
    | false =>
        cases hact : user.Activated with
        | false =>
            simp [requiredPermission, requireActivatedUser, requireAuthenticatedUser,
                  GoUser.IsAnonymous, hanon, hact]
        | true =>
            cases hlk : getAllForUser user.ID with
            | error e =>
                simp [requiredPermission, requireActivatedUser,
                      requireAuthenticatedUser, GoUser.IsAnonymous, hanon, hact, hlk]
            | ok ps =>
                cases hinc : ps.Include code with
                | false =>
                    simp [requiredPermission, requireActivatedUser,
                          requireAuthenticatedUser, GoUser.IsAnonymous,
                          hanon, hact, hlk, hinc]
                | true =>
                    simp [requiredPermission, requireActivatedUser,
                          requireAuthenticatedUser, GoUser.IsAnonymous,
                          hanon, hact, hlk, hinc]
  · intro hanon
    simp [requiredPermission, requireActivatedUser, requireAuthenticatedUser,
          GoUser.IsAnonymous, hanon]
  · intro hanon hact
    simp [requiredPermission, requireActivatedUser, requireAuthenticatedUser,
          GoUser.IsAnonymous, hanon, hact]
  · intro hanon hact ps hlk hinc
    simp [requiredPermission, requireActivatedUser, requireAuthenticatedUser,
          GoUser.IsAnonymous, hanon, hact, hlk, hinc]

/-- Witness for C4: the anonymous identity is turned away as
authentication-required; an activated user with the code reaches the
handler; an activated user without the code is not permitted. -/
theorem C4_permission_gate_witness :
    requiredPermission (fun _ => .ok ["movies:read"]) "movies:write"
        (fun _ => .handled) AnonymousUser = .authenticationRequired ∧
    requiredPermission (fun _ => .ok ["movies:read", "movies:write"]) "movies:write"
        (fun _ => .handled) sampleUser = .handled ∧
    requiredPermission (fun _ => .ok ["movies:read"]) "movies:write"
        (fun _ => .handled) sampleUser = .notPermitted :=
  ⟨(C4_permission_gate (fun _ => .ok ["movies:read"]) "movies:write" AnonymousUser).2.1 rfl,
   ((C4_permission_gate (fun _ => .ok ["movies:read", "movies:write"]) "movies:write"
        sampleUser).1).mpr ⟨rfl, rfl, ["movies:read", "movies:write"], rfl, by decide⟩,
   (C4_permission_gate (fun _ => .ok ["movies:read"]) "movies:write"
        sampleUser).2.2.2.1 rfl rfl ["movies:read"] rfl (by decide)⟩

/-- A Bearer header whose token fails the plaintext validator draws the
invalid-authentication-token response. -/
theorem authenticate_invalid_format (tokens : List TokenRow) (users : List GoUser)
    (now : ℚ) (header tok : String)
    (hsplit : goSplitSpace header = ["Bearer", tok])
    (hvf : (ValidateTokenPlainText Validator.New tok).Valid = false) :
    authenticate tokens users now header = .invalidAuthenticationToken := by
  have h0 : header ≠ "" := by
    intro he
    rw [he, show goSplitSpace "" = [""] from rfl] at hsplit
    simp at hsplit
  simp only [authenticate]
  rw [if_neg h0, hsplit]
  simp [hvf]

/-- A Bearer header whose valid-format token has no live matching
credential row draws the invalid-authentication-token response. -/
theorem authenticate_invalid_miss (tokens : List TokenRow) (users : List GoUser)
    (now : ℚ) (header tok : String)
    (hsplit : goSplitSpace header = ["Bearer", tok])
    (hnone : getForToken tokens users now ScopeAuthentication tok = none) :
    authenticate tokens users now header = .invalidAuthenticationToken := by
  have h0 : header ≠ "" := by
    intro he
    rw [he, show goSplitSpace "" = [""] from rfl] at hsplit
    simp at hsplit
  cases hv : (ValidateTokenPlainText Validator.New tok).Valid with
  | false => exact authenticate_invalid_format tokens users now header tok hsplit hv
  | true =>
      simp only [authenticate]
      rw [if_neg h0, hsplit]
      simp [hv, hnone]

/-- C3: For every presented bearer value, a credential that is malformed
(header not of the Bearer form, or token failing the format validator),
unknown, expired, or of the wrong scope produces the same uniform
invalid-authentication-token outcome, with no observable distinction
between these failure causes. -/
theorem C3_uniform_invalid_credential (tokens : List TokenRow) (users : List GoUser)
    (now : ℚ) :
    (∀ header, header ≠ "" →
      ((goSplitSpace header).length ≠ 2 ∨ (goSplitSpace header).getD 0 "" ≠ "Bearer") →
      authenticate tokens users now header = .invalidAuthenticationToken) ∧
    (∀ header tok, goSplitSpace header = ["Bearer", tok] →
      (ValidateTokenPlainText Validator.New tok).Valid = false →
      authenticate tokens users now header = .invalidAuthenticationToken) ∧
    (∀ header tok, goSplitSpace header = ["Bearer", tok] →
      (∀ r ∈ tokens, r.hash = sha256Str tok →
        ¬ (r.scope = ScopeAuthentication ∧ now < r.expiry)) →
      authenticate tokens users now header = .invalidAuthenticationToken) := by
  refine ⟨?_, ?_, ?_⟩
  · intro header h0 hmal
    simp only [authenticate]
    rw [if_neg h0, if_pos hmal]
  · intro header tok hsplit hvf
    exact authenticate_invalid_format tokens users now header tok hsplit hvf
  · intro header tok hsplit hmiss
    apply authenticate_invalid_miss tokens users now header tok hsplit
    simp only [getForToken]
    have hfind : tokens.find? (fun r =>
        r.hash == sha256Str tok && r.scope == ScopeAuthentication &&
          decide (now < r.expiry)) = none := by
      apply List.find?_eq_none.mpr
      intro r hr hpred
      simp only [Bool.and_eq_true, beq_iff_eq, decide_eq_true_eq] at hpred
      exact hmiss r hr hpred.1.1 ⟨hpred.1.2, hpred.2⟩
    rw [hfind]

/-- Witness for C3: against a store holding an expired row and a
wrong-scope row for the same valid-format token, a non-Bearer header, a
short token, and the token itself all draw the identical
invalid-authentication-token response. -/
theorem C3_uniform_invalid_credential_witness :
    authenticate [expiredRow, wrongScopeRow] [sampleUser] 5 "Token abc" =
      .invalidAuthenticationToken ∧
    authenticate [expiredRow, wrongScopeRow] [sampleUser] 5 "Bearer short" =
      .invalidAuthenticationToken ∧
    authenticate [expiredRow, wrongScopeRow] [sampleUser] 5 ("Bearer " ++ sampleToken) =
      .invalidAuthenticationToken :=
  ⟨(C3_uniform_invalid_credential [expiredRow, wrongScopeRow] [sampleUser] 5).1
      "Token abc" (by decide) (by decide),
   (C3_uniform_invalid_credential [expiredRow, wrongScopeRow] [sampleUser] 5).2.1
      "Bearer short" "short" (by decide) (by decide),
   (C3_uniform_invalid_credential [expiredRow, wrongScopeRow] [sampleUser] 5).2.2
      ("Bearer " ++ sampleToken) sampleToken (by decide) (by decide)⟩

/-- Counterexample for C7: a 26-byte bearer value made of characters
outside the base32 alphabet is malformed in charset yet reaches the
storage lookup — the outcome depends on the store's contents and can even
authenticate, so the claimed pre-lookup rejection of wrong-charset values
does not hold. -/
theorem C7_wrong_charset_reaches_lookup :
    (utf8Bytes wrongCharsetToken).length = 26 ∧
    wrongCharsetToken.data.all (fun c => !(base32Alphabet.data.contains c)) = true ∧
    authenticate [wrongCharsetRow] [sampleUser] 0 ("Bearer " ++ wrongCharsetToken) =
      .nextWith sampleUser ∧
    authenticate [] [sampleUser] 0 ("Bearer " ++ wrongCharsetToken) =
      .invalidAuthenticationToken := by
  decide

/-- C7 as amended: for every presented bearer value that is empty or not
exactly 26 bytes long, authenticate rejects it before any storage lookup:
the result is the invalid-authentication-token outcome and is independent
of the store's contents (no charset check is performed). -/
theorem C7_malformed_rejected_before_lookup (tokens1 tokens2 : List TokenRow)
    (users1 users2 : List GoUser) (now1 now2 : ℚ) (header tok : String)
    (hsplit : goSplitSpace header = ["Bearer", tok])
    (hbad : tok = "" ∨ (utf8Bytes tok).length ≠ 26) :
    authenticate tokens1 users1 now1 header = .invalidAuthenticationToken ∧
    authenticate tokens1 users1 now1 header = authenticate tokens2 users2 now2 header := by
  have hvf : (ValidateTokenPlainText Validator.New tok).Valid = false := by
    rw [validateTokenPlainText_valid]
    rcases hbad with h | h
    · simp [h]
    · simp [h]
  refine ⟨authenticate_invalid_format tokens1 users1 now1 header tok hsplit hvf, ?_⟩
  rw [authenticate_invalid_format tokens1 users1 now1 header tok hsplit hvf,
      authenticate_invalid_format tokens2 users2 now2 header tok hsplit hvf]

/-- Witness for C7 as amended: a 3-byte token is rejected identically
against an empty store and a store that could match anything. -/
theorem C7_malformed_rejected_before_lookup_witness :
    authenticate [] [] 0 "Bearer abc" = .invalidAuthenticationToken ∧
    authenticate [] [] 0 "Bearer abc" =
      authenticate [expiredRow] [sampleUser] 99 "Bearer abc" :=
  C7_malformed_rejected_before_lookup [] [expiredRow] [] [sampleUser] 0 99
    "Bearer abc" "abc" (by decide) (Or.inr (by decide))

/-- C2 (code bug): token generation itself matches the claim — 16
requested CSPRNG bytes, base32 no-padding plaintext, SHA-256 hash of the
plaintext, expiry now + ttl, the given scope and user, failure exactly on
entropy failure — but the insert statement targets the misspelled
relation `tokesn`, which is not the token relation of the schema, so the
store rejects every insert and nothing is ever durably recorded: New
always returns an error and leaves the store unchanged. -/
theorem C2_token_issue_bug :
    (∀ (userID : Int) (ttl : ℚ) (scope : String) (now : ℚ)
       (csprng : Nat → Option (List Nat)) (bs : List Nat), csprng 16 = some bs →
       generatedToken userID ttl scope now csprng =
         some { Plaintext := base32EncodeNoPad bs,
                Hash := sha256Str (base32EncodeNoPad bs),
                UserID := userID, Expiry := now + ttl, Scope := scope }) ∧
    (∀ (userID : Int) (ttl : ℚ) (scope : String) (now : ℚ)
       (csprng : Nat → Option (List Nat)), csprng 16 = none →
       generatedToken userID ttl scope now csprng = none) ∧
    sqlTargetTable tokenInsertQuery = "tokesn" ∧
    storeTables.contains (sqlTargetTable tokenInsertQuery) = false ∧
    storeAccepts tokenInsertQuery = false ∧
    (∀ (table : List TokenRow) (token : Token),
       TokenModel.Insert table token = (table, .error ())) ∧
    (∀ (table : List TokenRow) (userID : Int) (ttl : ℚ) (scope : String) (now : ℚ)
       (csprng : Nat → Option (List Nat)),
       TokenModel.New table userID ttl scope now csprng = (table, .error ())) := by
  have hacc : storeAccepts tokenInsertQuery = false := by decide
  have hins : ∀ (table : List TokenRow) (token : Token),
      TokenModel.Insert table token = (table, .error ()) := by
    intro table token
    simp [TokenModel.Insert, hacc]
  refine ⟨?_, ?_, by decide, by decide, hacc, hins, ?_⟩
  · intro userID ttl scope now csprng bs hcs
    simp [generatedToken, hcs]
  · intro userID ttl scope now csprng hcs
    simp [generatedToken, hcs]
  · intro table userID ttl scope now csprng
    cases hcs : csprng 16 with
    | none => simp [TokenModel.New, generatedToken, hcs]
    | some bs => simp [TokenModel.New, generatedToken, hcs, hins]

/-- Witness for C2: a concrete issuance with an all-zero entropy source
produces exactly the spec-shaped token, and New still fails with the
store untouched. -/
theorem C2_token_issue_bug_witness :
    generatedToken 1 3600 ScopeAuthentication 0 (fun n => some (List.replicate n 0)) =
      some { Plaintext := base32EncodeNoPad (List.replicate 16 0),
             Hash := sha256Str (base32EncodeNoPad (List.replicate 16 0)),
             UserID := 1, Expiry := 0 + 3600, Scope := ScopeAuthentication } ∧
    TokenModel.New [] 1 3600 ScopeAuthentication 0 (fun n => some (List.replicate n 0)) =
      ([], .error ()) :=
  ⟨C2_token_issue_bug.1 1 3600 ScopeAuthentication 0
      (fun n => some (List.replicate n 0)) (List.replicate 16 0) rfl,
   C2_token_issue_bug.2.2.2.2.2.2 [] 1 3600 ScopeAuthentication 0
      (fun n => some (List.replicate n 0))⟩

/-- C8 (code bug): the delete statement's leading keyword is the
misspelled `DLETE`, not a SQL command verb, so the store rejects it:
DeleteAllForUser always errors, removes nothing, and every previously
issued credential authenticates exactly as before the call. -/
theorem C8_invalidate_delete_bug :
    (sqlWords deleteAllForUserQuery).getD 0 "" = "DLETE" ∧
    sqlVerbs.contains ((sqlWords deleteAllForUserQuery).getD 0 "") = false ∧
    storeAccepts deleteAllForUserQuery = false ∧
    (∀ (table : List TokenRow) (scope : String) (userID : Int),
       TokenModel.DeleteAllForUser table scope userID = (table, .error ())) ∧
    (∀ (table : List TokenRow) (scope : String) (userID : Int)
       (users : List GoUser) (now : ℚ) (header : String),
       authenticate (TokenModel.DeleteAllForUser table scope userID).1 users now header =
         authenticate table users now header) := by
  have hacc : storeAccepts deleteAllForUserQuery = false := by decide
  have hdel : ∀ (table : List TokenRow) (scope : String) (userID : Int),
      TokenModel.DeleteAllForUser table scope userID = (table, .error ()) := by
    intro table scope userID
    simp [TokenModel.DeleteAllForUser, hacc]
  refine ⟨by decide, by decide, hacc, hdel, ?_⟩
  intro table scope userID users now header
  rw [hdel table scope userID]

end Greenlight
